import Mathlib

/-!
Verification of the `phayes/errors` Go library (error-chaining + error set).

The repository ships two revisions of the chain library in `src/errors.go`:
* a pointer-based revision (`type Error struct` with `err`, `inner`, `anno`
  fields and pointer receivers, lines 1-202), modelled in namespace `PtrV`
  with an explicit heap so that in-place mutation and pointer identity are
  observable;
* a value-based revision (`type DefaultError struct` with `msg`, `inner`
  fields and value receivers, lines 203-366), modelled in namespace `ValV`
  as a pure inductive value type whose Lean equality is exactly Go's
  structural `==` on the `DefaultError` struct / interface values.

Go `error` interface values are modelled by inductives: a `foreign`
constructor stands for an error produced outside the library (e.g. by the
standard `errors.New`), carrying an allocation identity `id` (Go compares
such values by pointer identity) together with its message; the other
constructors stand for the library's own types.  Formatted constructors
(`Newf`, `Wrapf`, ...) take the already-rendered format result as their
string argument, since `fmt` formatting is out of scope of the spec.
Maps `map[string]T` are modelled as association lists whose lookup is
first-match; a `nil` map is distinguished from an allocated empty map by
an `Option`.  A Go `panic` is modelled as `Option.none`.  Recursive walks
over the heap take a fuel parameter and return `none` when it runs out.
-/

namespace PhayesErrors

namespace PtrV

/-- A Go `error` interface value in the pointer-based revision: either an
error foreign to the library (identity `id`, message `msg`) or a `*Error`
pointer, i.e. an address into the heap. -/
inductive EV where
  | foreign (id : Nat) (msg : String)
  | chain (addr : Nat)
deriving DecidableEq

/-- The `Error` struct of `src/errors.go` lines 9-13: `err error`,
`inner error` (nil-able) and `anno map[string]interface{}` (nil-able map,
values modelled by their `%s` rendering). -/
structure Node where
  err : EV
  inner : Option EV
  anno : Option (List (String × String))
deriving DecidableEq

/-- The mutable store: `heap` holds the `*Error` allocations (an address is
an index), `fstore` the messages of foreign allocations (a foreign identity
is an index). -/
structure St where
  heap : List Node
  fstore : List String
deriving DecidableEq

/-- Dereference a `*Error` pointer. -/
def getNode (σ : St) (a : Nat) : Option Node :=
  σ.heap[a]?

/-- Allocate a fresh `Error` struct; its address is the old heap length. -/
def allocNode (σ : St) (nd : Node) : St :=
  { σ with heap := σ.heap ++ [nd] }

/-- Overwrite the struct a pointer refers to (in-place mutation). -/
def setNode (σ : St) (a : Nat) (nd : Node) : St :=
  { σ with heap := σ.heap.set a nd }

/-- The standard library `errors.New` (also `fmt.Errorf`): allocates a fresh
foreign error value with a fresh identity. -/
def stdNew (σ : St) (s : String) : EV × St :=
  (EV.foreign σ.fstore.length s, { σ with fstore := σ.fstore ++ [s] })

/-- `New` of `src/errors.go` lines 146-152: allocates `errors.New(s)` and a
fresh `&Error{err: that}`; returns the new node's address. -/
def New (σ : St) (s : String) : Nat × St :=
  let p := stdNew σ s
  (p.2.heap.length, allocNode p.2 ⟨p.1, none, none⟩)

/-- `Newf` of lines 154-160, with the format result pre-rendered. -/
def Newf (σ : St) (rendered : String) : Nat × St :=
  New σ rendered

/-- `(*Error).Inner` of lines 20-31: `nil` inner gives nil; a `*Error` inner
is returned as is; a foreign inner is repackaged into a freshly allocated
`&Error{err: inner}`.  The result is a nil-able `*Error`. -/
def Inner (σ : St) (a : Nat) : Option (Option Nat × St) :=
  match getNode σ a with
  | none => none
  | some nd =>
    match nd.inner with
    | none => some (none, σ)
    | some (EV.chain b) => some (some b, σ)
    | some (EV.foreign id m) =>
      some (some σ.heap.length, allocNode σ ⟨EV.foreign id m, none, none⟩)

/-- `(*Error).Base` of lines 34-43: with no inner it returns the receiver
itself, otherwise a freshly allocated copy carrying the same `err` and
`anno` but no inner. -/
def Base (σ : St) (a : Nat) : Option (Nat × St) :=
  match getNode σ a with
  | none => none
  | some nd =>
    match nd.inner with
    | none => some (a, σ)
    | some _ => some (σ.heap.length, allocNode σ ⟨nd.err, none, nd.anno⟩)

/-- `(*Error).Wrap` of lines 102-106: `e.inner = err; return e` — writes the
argument into the receiver's `inner` field and returns the receiver. -/
def Wrap (σ : St) (a : Nat) (x : EV) : Option (Nat × St) :=
  match getNode σ a with
  | none => none
  | some nd => some (a, setNode σ a ⟨nd.err, some x, nd.anno⟩)

/-- `(*Error).Wraps` of lines 108-111: `e.Wrap(errors.New(str))`. -/
def Wraps (σ : St) (a : Nat) (s : String) : Option (Nat × St) :=
  let p := stdNew σ s
  Wrap p.2 a p.1

/-- `(*Error).Wrapf` of lines 113-116, format result pre-rendered. -/
def Wrapf (σ : St) (a : Nat) (rendered : String) : Option (Nat × St) :=
  Wraps σ a rendered

/-- `(*Error).Append` of lines 118-128: a `*Error` argument is mutated via
`outerError.Wrap(e)`; otherwise a fresh `&Error{err: err, inner: e}`. -/
def Append (σ : St) (a : Nat) (x : EV) : Option (Nat × St) :=
  match x with
  | EV.chain b => Wrap σ b (EV.chain a)
  | EV.foreign id m =>
    some (σ.heap.length, allocNode σ ⟨EV.foreign id m, some (EV.chain a), none⟩)

/-- `(*Error).Appends` of lines 130-136: fresh `&Error{err: New(str),
inner: e}` — note the `err` field holds a `*Error` here. -/
def Appends (σ : St) (a : Nat) (s : String) : Nat × St :=
  let p := New σ s
  (p.2.heap.length, allocNode p.2 ⟨EV.chain p.1, some (EV.chain a), none⟩)

/-- `(*Error).Appendf` of lines 138-144, format result pre-rendered. -/
def Appendf (σ : St) (a : Nat) (rendered : String) : Nat × St :=
  Appends σ a rendered

/-- `(*Error).Annotate` of lines 64-70: Go map insert (replace or add). -/
def annoInsert : List (String × String) → String → String → List (String × String)
  | [], k, v => [(k, v)]
  | (k', v') :: t, k, v =>
    if k' = k then (k, v) :: t else (k', v') :: annoInsert t k v

/-- `(*Error).Annotate` of lines 64-70: lazily materialises the map, then
inserts in place. -/
def Annotate (σ : St) (a : Nat) (k v : String) : Option St :=
  match getNode σ a with
  | none => none
  | some nd =>
    some (setNode σ a ⟨nd.err, nd.inner, some (annoInsert (nd.anno.getD []) k v)⟩)

/-- The merge loop of `GetAnnotations` lines 84-88: each inner entry is
added to the accumulating map only when its key is absent there. -/
def mergeAnno (A B : List (String × String)) : List (String × String) :=
  B.foldl (fun acc kv => if (List.lookup kv.1 acc).isSome then acc else acc ++ [kv]) A

/-- `(*Error).GetAnnotations` of lines 74-91: aliases the receiver's map
when non-nil (so the merged result is stored back into the receiver),
otherwise works on a fresh map; recurses through `Inner()`. -/
def GetAnnotations : Nat → St → Nat → Option (List (String × String) × St)
  | 0, _, _ => none
  | fuel+1, σ, a =>
    match getNode σ a with
    | none => none
    | some nd =>
      let anno := nd.anno.getD []
      match Inner σ a with
      | none => none
      | some (none, σ₁) => some (anno, σ₁)
      | some (some b, σ₁) =>
        match GetAnnotations fuel σ₁ b with
        | none => none
        | some (ia, σ₂) =>
          let merged := mergeAnno anno ia
          if nd.anno.isSome then
            match getNode σ₂ a with
            | none => none
            | some nd₂ => some (merged, setNode σ₂ a ⟨nd₂.err, nd₂.inner, some merged⟩)
          else some (merged, σ₂)

/-- The per-level annotation maps of a chain, outermost first, following the
same `Inner()` unfolding as `GetAnnotations` (a foreign inner contributes
the empty map of its synthesized wrapper node).  Pure stating device for
the claims about `GetAnnotations`. -/
def chainAnnos : Nat → St → Nat → Option (List (List (String × String)))
  | 0, _, _ => none
  | fuel+1, σ, a =>
    match getNode σ a with
    | none => none
    | some nd =>
      let own := nd.anno.getD []
      match nd.inner with
      | none => some [own]
      | some (EV.foreign _ _) => some [own, []]
      | some (EV.chain b) =>
        match chainAnnos fuel σ b with
        | none => none
        | some r => some (own :: r)

/-- First defined value in a list of optional values (used to state that
outer annotation keys take precedence over inner ones). -/
def firstSome : List (Option α) → Option α
  | [] => none
  | o :: r =>
    match o with
    | some v => some v
    | none => firstSome r

/-- Rendering of the annotation loop in `(*Error).Error` lines 57-59. -/
def annoRender (l : List (String × String)) : String :=
  match l with
  | [] => ""
  | kv :: r => kv.1 ++ ": " ++ kv.2 ++ ". " ++ annoRender r

/-- `(*Error).Error` of lines 45-62: message (via `e.err.Error()`), then a
". "-joined inner rendering from the raw `inner` field, then the merged
annotations (with their mutating `GetAnnotations` call) appended as
`key: value. ` pairs after one more ". ".  The interface call `v.Error()`
on an `error` field value is inlined here: a foreign error renders its own
message, a `*Error` dispatches back into this method. -/
def ErrorStr : Nat → St → Nat → Option (String × St)
  | 0, _, _ => none
  | fuel+1, σ, a =>
    match getNode σ a with
    | none => none
    | some nd =>
      let step1 : Option (String × St) :=
        match nd.err with
        | EV.foreign _ m => some (m, σ)
        | EV.chain b => ErrorStr fuel σ b
      match step1 with
      | none => none
      | some (bmsg, σ₁) =>
        let step2 : Option (String × St) :=
          match nd.inner with
          | none => some (bmsg, σ₁)
          | some (EV.foreign _ m) => some (bmsg ++ ". " ++ m, σ₁)
          | some (EV.chain b) =>
            match ErrorStr fuel σ₁ b with
            | none => none
            | some (im, σ₂) => some (bmsg ++ ". " ++ im, σ₂)
        match step2 with
        | none => none
        | some (msg, σ₂) =>
          match GetAnnotations (fuel+1) σ₂ a with
          | none => none
          | some (anno, σ₃) =>
            if anno.isEmpty then some (msg, σ₃)
            else some (msg ++ ". " ++ annoRender anno, σ₃)

/-- `(*Error).Cause` of lines 93-100: `if e.Inner() == nil return e else
return e.Inner().Cause()` — note `Inner()` is called twice when non-nil,
allocating two wrapper nodes for a foreign inner. -/
def Cause : Nat → St → Nat → Option (EV × St)
  | 0, _, _ => none
  | fuel+1, σ, a =>
    match Inner σ a with
    | none => none
    | some (none, σ₁) => some (EV.chain a, σ₁)
    | some (some _, σ₁) =>
      match Inner σ₁ a with
      | some (some b, σ₂) => Cause fuel σ₂ b
      | _ => none

/-- Modelled from the spec: the package-level `Cause` function of this
revision is absent from `src` (only the test file `src/unnamed/part_002`
calls it).  Per spec section 4.1 it returns a non-chain argument unchanged
and otherwise walks `Inner()` exactly as the `(*Error).Cause` method of
`src/errors.go` lines 93-100 does. -/
def pkgCause (fuel : Nat) (σ : St) (v : EV) : Option (EV × St) :=
  match v with
  | EV.foreign id m => some (EV.foreign id m, σ)
  | EV.chain a => Cause fuel σ a

/-- The immutable fields of a node: `GetAnnotations` and `Error` may write
a node's `anno` map but never its `err` or `inner` fields (stating device
for frame lemmas). -/
def nodeFrame (nd : Node) : EV × Option EV :=
  (nd.err, nd.inner)

/-- A chain of `n` `Inner()` steps through `*Error` inners from `a` down to
the innermost node `c` (whose `inner` is nil), in a fixed heap (stating
device: "a chain of depth N" in the claims; the depth is the first `Nat`
argument). -/
def ChainTo (σ : St) : Nat → Nat → Nat → Prop
  | 0, a, c => a = c ∧ ∃ nd, getNode σ a = some nd ∧ nd.inner = none
  | n + 1, a, c => ∃ b nd, getNode σ a = some nd ∧ nd.inner = some (EV.chain b) ∧
      ChainTo σ n b c

/-- `Equal` of lines 162-184: interface identity first, then the `Base()`
comparisons of the four type-assertion cases (Go evaluates
`e2Error.Base() == e1Error.Base()` left to right). -/
def Equal (σ : St) (v1 v2 : EV) : Option (Bool × St) :=
  if v1 = v2 then some (true, σ)
  else
    match v1, v2 with
    | EV.chain a1, EV.chain a2 =>
      match Base σ a2 with
      | none => none
      | some (b2, σ₁) =>
        match Base σ₁ a1 with
        | none => none
        | some (b1, σ₂) => some (decide (b2 = b1), σ₂)
    | EV.chain a1, EV.foreign id m =>
      match Base σ a1 with
      | none => none
      | some (b1, σ₁) => some (decide (EV.chain b1 = EV.foreign id m), σ₁)
    | EV.foreign id m, EV.chain a2 =>
      match Base σ a2 with
      | none => none
      | some (b2, σ₁) => some (decide (EV.chain b2 = EV.foreign id m), σ₁)
    | EV.foreign _ _, EV.foreign _ _ => some (false, σ)

end PtrV

namespace ValV

/-- A Go `error` interface value in the value-based revision: a foreign
error (pointer identity `id`, message `msg`), or a `DefaultError` struct
value with a nil inner (`root`) or a present inner (`wrapped`).  Lean
equality on `VE` is exactly Go's `==` on these interface values: foreign
errors compare by identity, `DefaultError` values compare structurally
(field by field, recursively through the `inner` interface field). -/
inductive VE where
  | foreign (id : Nat) (msg : String)
  | root (msg : String)
  | wrapped (msg : String) (inner : VE)
deriving DecidableEq

/-- The runtime type assertion `e.(Error)` of the `Error` interface defined
at `src/errors.go` lines 209-225: `DefaultError` implements it, foreign
errors do not. -/
def isChain : VE → Bool
  | VE.foreign _ _ => false
  | VE.root _ => true
  | VE.wrapped _ _ => true

/-- `DefaultError.Message` of lines 234-236 (the foreign case never arises
in the source, where `Message` has a `DefaultError` receiver; it is given
the foreign message for totality). -/
def Message : VE → String
  | VE.foreign _ m => m
  | VE.root m => m
  | VE.wrapped m _ => m

/-- The interface call `v.Error()`: `DefaultError.Error` of lines 240-246
(message, then ". " and the inner's full rendering), a foreign error
rendering its own message. -/
def ErrStr : VE → String
  | VE.foreign _ m => m
  | VE.root m => m
  | VE.wrapped m i => m ++ ". " ++ ErrStr i

/-- `DefaultError.Inner` of lines 249-251: the raw `inner` field. -/
def DInner : VE → Option VE
  | VE.wrapped _ i => some i
  | _ => none

/-- `DefaultError.Base` of lines 254-257: the value copy with `inner` set
to nil (the foreign case never arises in the source). -/
def Base : VE → VE
  | VE.foreign id m => VE.foreign id m
  | VE.root m => VE.root m
  | VE.wrapped m _ => VE.root m

/-- `DefaultError.Wrap` of lines 260-263: value receiver, so the caller's
value is untouched; returns the copy with `inner` set to the argument. -/
def DWrap (e : VE) (x : VE) : VE :=
  VE.wrapped (Message e) x

/-- `New` of lines 267-271: `DefaultError{msg: s}`. -/
def New (s : String) : VE :=
  VE.root s

/-- `Newf` of lines 275-279, with the format result pre-rendered. -/
def Newf (rendered : String) : VE :=
  VE.root rendered

/-- Package-level `Wrap` of lines 283-289: asserts the outer to be a chain
node and calls its `Wrap` method, otherwise panics (modelled as `none`). -/
def Wrap (innerErr outerErr : VE) : Option VE :=
  if isChain outerErr then some (DWrap outerErr innerErr) else none

/-- `Wraps` of lines 292-297: `DefaultError{msg: outer, inner: err}`. -/
def Wraps (err : VE) (outer : String) : VE :=
  VE.wrapped outer err

/-- `Wrapf` of lines 300-305, format result pre-rendered. -/
def Wrapf (err : VE) (rendered : String) : VE :=
  VE.wrapped rendered err

/-- `RWraps` of lines 309-315: asserts the outer to be a chain node and
wraps `New(inner)` beneath it, otherwise panics (modelled as `none`). -/
def RWraps (outerErr : VE) (s : String) : Option VE :=
  if isChain outerErr then some (DWrap outerErr (New s)) else none

/-- `RWrapf` of lines 319-325, format result pre-rendered. -/
def RWrapf (outerErr : VE) (rendered : String) : Option VE :=
  if isChain outerErr then some (DWrap outerErr (Newf rendered)) else none

/-- `Equal` of lines 328-348: interface identity first; two non-chain
values are unequal from here on; two chain values compare by `Base()`;
the mixed cases fall through to `false`. -/
def Equal (e1 e2 : VE) : Bool :=
  if e1 = e2 then true
  else if !(isChain e1) && !(isChain e2) then false
  else if isChain e1 && isChain e2 then decide (Base e2 = Base e1)
  else false

end ValV

namespace ESet

/-- `ErrorSet` of `src/unnamed/part_000` lines 8-11: the mutex guards every
operation of the sequential model, so it has no observable counterpart
here; the backing `map[string]error` is nil-able (`Option`) and modelled
as an association list in insertion order (Go map iteration order is
unspecified; this model iterates in insertion order, one of the permitted
orders).  Entries hold `ValV` error values. -/
structure ErrorSet where
  set : Option (List (String × ValV.VE))
deriving DecidableEq

/-- `NewErrorSet` of lines 13-16: empty set, backing map not yet
allocated. -/
def NewErrorSet : ErrorSet :=
  ⟨none⟩

/-- Go map insert used by `Add`: replace an existing key or append. -/
def upsert : List (String × ValV.VE) → String → ValV.VE → List (String × ValV.VE)
  | [], k, v => [(k, v)]
  | (k', v') :: t, k, v =>
    if k' = k then (k, v) :: t else (k', v') :: upsert t k v

/-- `(*ErrorSet).Add` of lines 34-43: lazily allocates the backing map,
then inserts/overwrites. -/
def Add (e : ErrorSet) (k : String) (v : ValV.VE) : ErrorSet :=
  match e.set with
  | none => ⟨some [(k, v)]⟩
  | some l => ⟨some (upsert l k v)⟩

/-- `(*ErrorSet).Get` of lines 45-53: nil map or absent key yields nil. -/
def Get (e : ErrorSet) (k : String) : Option ValV.VE :=
  match e.set with
  | none => none
  | some l => List.lookup k l

/-- `(*ErrorSet).GetAll` of lines 55-70: a copy of all entries (value
semantics make the copy implicit here). -/
def GetAll (e : ErrorSet) : List (String × ValV.VE) :=
  e.set.getD []

/-- `(*ErrorSet).HasErrors` of lines 72-81. -/
def HasErrors (e : ErrorSet) : Bool :=
  match e.set with
  | none => false
  | some l => !l.isEmpty

/-- Cutset membership test of Go `strings.TrimRight`. -/
def inCut (cut : List Char) (c : Char) : Bool :=
  match cut with
  | [] => false
  | d :: t => c == d || inCut t c

/-- Go `strings.TrimRight(s, cutset)`: removes all trailing characters
belonging to the cutset. -/
def goTrimRight (s : String) (cut : List Char) : String :=
  String.mk (((s.toList.reverse).dropWhile (inCut cut)).reverse)

/-- The rendering loop of `(*ErrorSet).Error` lines 25-29: appends
`key: message. ` for every entry. -/
def setPairs : List (String × ValV.VE) → String
  | [] => ""
  | p :: r => p.1 ++ ": " ++ ValV.ErrStr p.2 ++ ". " ++ setPairs r

/-- `(*ErrorSet).Error` of lines 18-32: empty or nil set renders as "";
otherwise the concatenated `key: message. ` pairs with all trailing `'.'`
and `' '` characters trimmed. -/
def ErrorStr (e : ErrorSet) : String :=
  match e.set with
  | none => ""
  | some l => if l.isEmpty then "" else goTrimRight (setPairs l) ['.', ' ']

/-- One `key: message` pair without the trailing delimiter (stating
device). -/
def pairStr (p : String × ValV.VE) : String :=
  p.1 ++ ": " ++ ValV.ErrStr p.2

/-- Pairs joined by ". " with no dangling trailing delimiter (stating
device for the claim about `ErrorSet.Error`). -/
def specJoin : List String → String
  | [] => ""
  | [p] => p
  | p :: q :: r => p ++ ". " ++ specJoin (q :: r)

end ESet

namespace PtrV

theorem getNode_alloc_self (σ : St) (nd : Node) :
    getNode (allocNode σ nd) σ.heap.length = some nd := by
  simp [getNode, allocNode, List.getElem?_concat_length]

theorem getNode_alloc_lt (σ : St) (nd : Node) (b : Nat) (h : b < σ.heap.length) :
    getNode (allocNode σ nd) b = getNode σ b := by
  simp [getNode, allocNode, List.getElem?_append_left h]

theorem getNode_lt (σ : St) (a : Nat) (nd : Node) (h : getNode σ a = some nd) :
    a < σ.heap.length := by
  obtain ⟨h1, -⟩ := List.getElem?_eq_some.1 h
  exact h1

theorem getNode_set_self (σ : St) (a : Nat) (nd : Node) (h : a < σ.heap.length) :
    getNode (setNode σ a nd) a = some nd := by
  simp [getNode, setNode, List.getElem?_set_self h]

theorem getNode_set_ne (σ : St) (a b : Nat) (nd : Node) (h : b ≠ a) :
    getNode (setNode σ a nd) b = getNode σ b := by
  simp [getNode, setNode, List.getElem?_set_ne (fun he => h he.symm)]

theorem length_setNode (σ : St) (a : Nat) (nd : Node) :
    (setNode σ a nd).heap.length = σ.heap.length := by
  simp [setNode]

theorem length_allocNode (σ : St) (nd : Node) :
    (allocNode σ nd).heap.length = σ.heap.length + 1 := by
  simp [allocNode]

theorem lookup_append (k : String) (A B : List (String × String)) :
    List.lookup k (A ++ B) = (List.lookup k A).or (List.lookup k B) := by
  induction A with
  | nil => simp
  | cons p t ih =>
    obtain ⟨k', v'⟩ := p
    by_cases hk : k = k'
    · subst hk; simp [List.lookup_cons]
    · simp [List.lookup_cons, beq_false_of_ne hk, ih]

theorem lookup_mergeAnno (k : String) (B A : List (String × String)) :
    List.lookup k (mergeAnno A B) = (List.lookup k A).or (List.lookup k B) := by
  induction B generalizing A with
  | nil => simp [mergeAnno]
  | cons p B' ih =>
    obtain ⟨k', v'⟩ := p
    have hstep : mergeAnno A ((k', v') :: B') =
        mergeAnno (if (List.lookup k' A).isSome then A else A ++ [(k', v')]) B' := by
      simp [mergeAnno, List.foldl_cons]
    rw [hstep]
    cases hA : List.lookup k' A with
    | some w =>
      simp only [hA, Option.isSome_some, if_pos]
      rw [ih]
      by_cases hk : k = k'
      · subst hk; simp [hA, List.lookup_cons]
      · simp [List.lookup_cons, beq_false_of_ne hk]
    | none =>
      simp only [hA, Option.isSome_none, if_neg, Bool.false_eq_true, not_false_iff]
      rw [ih, lookup_append]
      by_cases hk : k = k'
      · subst hk
        simp [hA, List.lookup_cons]
      · simp [List.lookup_cons, beq_false_of_ne hk]

theorem firstSome_cons (o : Option α) (r : List (Option α)) :
    firstSome (o :: r) = o.or (firstSome r) := by
  cases o <;> simp [firstSome, Option.or]

theorem mergeAnno_nil (A : List (String × String)) : mergeAnno A [] = A := rfl

theorem ga_frame : ∀ (fuel : Nat) (σ : St) (a : Nat) (m : List (String × String)) (σ' : St),
    GetAnnotations fuel σ a = some (m, σ') →
    σ.heap.length ≤ σ'.heap.length ∧
    ∀ b, b < σ.heap.length → (getNode σ' b).map nodeFrame = (getNode σ b).map nodeFrame := by
  intro fuel
  induction fuel with
  | zero => intro σ a m σ' h; simp [GetAnnotations] at h
  | succ f ih =>
    intro σ a m σ' h
    cases hnd : getNode σ a with
    | none => simp [GetAnnotations, hnd] at h
    | some nd =>
      cases hinner : nd.inner with
      | none =>
        simp [GetAnnotations, Inner, hnd, hinner] at h
        obtain ⟨-, hσ⟩ := h
        subst hσ
        exact ⟨Nat.le_refl _, fun b _ => rfl⟩
      | some iv =>
        cases iv with
        | chain c =>
          cases hrec : GetAnnotations f σ c with
          | none => simp [GetAnnotations, Inner, hnd, hinner, hrec] at h
          | some pr =>
            obtain ⟨ia, σ₂⟩ := pr
            obtain ⟨hlen, hframe⟩ := ih σ c ia σ₂ hrec
            cases hanno : nd.anno with
            | none =>
              simp [GetAnnotations, Inner, hnd, hinner, hrec, hanno] at h
              obtain ⟨-, hσ⟩ := h
              subst hσ
              exact ⟨hlen, hframe⟩
            | some l =>
              cases hnd2 : getNode σ₂ a with
              | none => simp [GetAnnotations, Inner, hnd, hinner, hrec, hanno, hnd2] at h
              | some nd₂ =>
                simp [GetAnnotations, Inner, hnd, hinner, hrec, hanno, hnd2] at h
                obtain ⟨-, hσ⟩ := h
                subst hσ
                refine ⟨by rw [length_setNode]; exact hlen, ?_⟩
                intro b hb
                by_cases hba : b = a
                · subst hba
                  have hb2 : b < σ₂.heap.length := Nat.lt_of_lt_of_le hb hlen
                  have hfa := hframe b hb
                  rw [hnd2, hnd] at hfa
                  rw [getNode_set_self σ₂ b _ hb2, hnd]
                  simp [nodeFrame] at hfa ⊢
                  exact hfa
                · rw [getNode_set_ne σ₂ a b _ hba]
                  exact hframe b hb
        | foreign id ms =>
          cases hrec : GetAnnotations f (allocNode σ ⟨EV.foreign id ms, none, none⟩)
              σ.heap.length with
          | none => simp [GetAnnotations, Inner, hnd, hinner, hrec] at h
          | some pr =>
            obtain ⟨ia, σ₂⟩ := pr
            obtain ⟨hlen0, hframe0⟩ := ih _ _ ia σ₂ hrec
            rw [length_allocNode] at hlen0
            have hlen : σ.heap.length ≤ σ₂.heap.length := by omega
            have hframe : ∀ b, b < σ.heap.length →
                (getNode σ₂ b).map nodeFrame = (getNode σ b).map nodeFrame := by
              intro b hb
              have hb' : b < (allocNode σ ⟨EV.foreign id ms, none, none⟩).heap.length := by
                rw [length_allocNode]; omega
              rw [hframe0 b hb', getNode_alloc_lt σ _ b hb]
            cases hanno : nd.anno with
            | none =>
              simp [GetAnnotations, Inner, hnd, hinner, hrec, hanno] at h
              obtain ⟨-, hσ⟩ := h
              subst hσ
              exact ⟨hlen, hframe⟩
            | some l =>
              cases hnd2 : getNode σ₂ a with
              | none => simp [GetAnnotations, Inner, hnd, hinner, hrec, hanno, hnd2] at h
              | some nd₂ =>
                simp [GetAnnotations, Inner, hnd, hinner, hrec, hanno, hnd2] at h
                obtain ⟨-, hσ⟩ := h
                subst hσ
                refine ⟨by rw [length_setNode]; exact hlen, ?_⟩
                intro b hb
                by_cases hba : b = a
                · subst hba
                  have hb2 : b < σ₂.heap.length := Nat.lt_of_lt_of_le hb hlen
                  have hfa := hframe b hb
                  rw [hnd2, hnd] at hfa
                  rw [getNode_set_self σ₂ b _ hb2, hnd]
                  simp [nodeFrame] at hfa ⊢
                  exact hfa
                · rw [getNode_set_ne σ₂ a b _ hba]
                  exact hframe b hb

theorem firstSome_single (o : Option α) : firstSome [o] = o := by
  cases o <;> rfl

theorem firstSome_pair_none (o : Option α) : firstSome [o, none] = o := by
  cases o <;> rfl

theorem ga_lookup : ∀ (fuel : Nat) (σ : St) (a : Nat) (m : List (String × String)) (σ' : St),
    GetAnnotations fuel σ a = some (m, σ') →
    ∃ ℓ, chainAnnos fuel σ a = some ℓ ∧
      ∀ k, List.lookup k m = firstSome (ℓ.map (List.lookup k)) := by
  intro fuel
  induction fuel with
  | zero => intro σ a m σ' h; simp [GetAnnotations] at h
  | succ f ih =>
    intro σ a m σ' h
    cases hnd : getNode σ a with
    | none => simp [GetAnnotations, hnd] at h
    | some nd =>
      cases hinner : nd.inner with
      | none =>
        simp [GetAnnotations, Inner, hnd, hinner] at h
        obtain ⟨hm, -⟩ := h
        refine ⟨[nd.anno.getD []], by simp [chainAnnos, hnd, hinner], fun k => ?_⟩
        rw [← hm]
        simp [firstSome_single]
      | some iv =>
        cases iv with
        | chain c =>
          cases hrec : GetAnnotations f σ c with
          | none => simp [GetAnnotations, Inner, hnd, hinner, hrec] at h
          | some pr =>
            obtain ⟨ia, σ₂⟩ := pr
            obtain ⟨ℓ', hca, hlk⟩ := ih σ c ia σ₂ hrec
            have hm : m = mergeAnno (nd.anno.getD []) ia := by
              cases hanno : nd.anno with
              | none =>
                simp [GetAnnotations, Inner, hnd, hinner, hrec, hanno] at h
                simpa using h.1.symm
              | some l =>
                cases hnd2 : getNode σ₂ a with
                | none => simp [GetAnnotations, Inner, hnd, hinner, hrec, hanno, hnd2] at h
                | some nd₂ =>
                  simp [GetAnnotations, Inner, hnd, hinner, hrec, hanno, hnd2] at h
                  simpa using h.1.symm
            refine ⟨(nd.anno.getD []) :: ℓ', by simp [chainAnnos, hnd, hinner, hca], fun k => ?_⟩
            rw [hm, lookup_mergeAnno]
            simp [List.map_cons, firstSome_cons, hlk k]
        | foreign id ms =>
          cases f with
          | zero => simp [GetAnnotations, Inner, hnd, hinner] at h
          | succ g =>
            have ha : a < σ.heap.length := getNode_lt σ a nd hnd
            have hnd2 : getNode (allocNode σ ⟨EV.foreign id ms, none, none⟩) a = some nd := by
              rw [getNode_alloc_lt σ _ a ha, hnd]
            have hm : m = nd.anno.getD [] := by
              cases hanno : nd.anno with
              | none =>
                simp [GetAnnotations, Inner, hnd, hinner, hanno, getNode_alloc_self,
                  mergeAnno_nil] at h
                simpa using h.1.symm
              | some l =>
                simp [GetAnnotations, Inner, hnd, hinner, hanno, getNode_alloc_self, hnd2,
                  mergeAnno_nil] at h
                simpa using h.1.symm
            refine ⟨[nd.anno.getD [], []], by simp [chainAnnos, hnd, hinner], fun k => ?_⟩
            rw [hm]
            simp [firstSome_pair_none]

theorem ga_writes : ∀ (fuel : Nat) (σ : St) (a : Nat) (nd : Node) (l m : List (String × String))
    (σ' : St), getNode σ a = some nd → nd.anno = some l →
    GetAnnotations fuel σ a = some (m, σ') →
    getNode σ' a = some ⟨nd.err, nd.inner, some m⟩ := by
  intro fuel σ a nd l m σ' hnd hanno h
  cases fuel with
  | zero => simp [GetAnnotations] at h
  | succ f =>
    cases hinner : nd.inner with
    | none =>
      simp [GetAnnotations, Inner, hnd, hinner, hanno] at h
      obtain ⟨hm, hσ⟩ := h
      subst hσ
      rw [hnd]
      cases nd with
      | mk e i an =>
        simp only at hanno hinner ⊢
        rw [hanno, hinner, hm]
    | some iv =>
      cases iv with
      | chain c =>
        cases hrec : GetAnnotations f σ c with
        | none => simp [GetAnnotations, Inner, hnd, hinner, hrec] at h
        | some pr =>
          obtain ⟨ia, σ₂⟩ := pr
          obtain ⟨-, hframe⟩ := ga_frame f σ c ia σ₂ hrec
          cases hnd2 : getNode σ₂ a with
          | none => simp [GetAnnotations, Inner, hnd, hinner, hrec, hanno, hnd2] at h
          | some nd₂ =>
            simp [GetAnnotations, Inner, hnd, hinner, hrec, hanno, hnd2] at h
            obtain ⟨hm, hσ⟩ := h
            subst hσ
            have hfa := hframe a (getNode_lt σ a nd hnd)
            rw [hnd2, hnd] at hfa
            simp [nodeFrame] at hfa
            have ha2 : a < σ₂.heap.length := getNode_lt σ₂ a nd₂ hnd2
            rw [getNode_set_self σ₂ a _ ha2]
            rw [hfa.1, hfa.2, ← hm, hinner]
      | foreign id ms =>
        cases f with
        | zero => simp [GetAnnotations, Inner, hnd, hinner] at h
        | succ g =>
          have ha : a < σ.heap.length := getNode_lt σ a nd hnd
          have hnd2 : getNode (allocNode σ ⟨EV.foreign id ms, none, none⟩) a = some nd := by
            rw [getNode_alloc_lt σ _ a ha, hnd]
          simp [GetAnnotations, Inner, hnd, hinner, hanno, getNode_alloc_self, hnd2,
            mergeAnno_nil] at h
          obtain ⟨hm, hσ⟩ := h
          subst hσ
          have ha2 : a < (allocNode σ ⟨EV.foreign id ms, none, none⟩).heap.length := by
            rw [length_allocNode]; omega
          rw [getNode_set_self _ a _ ha2]
          rw [hm]

end PtrV

namespace ESet

theorem mk_data (s : String) : String.mk s.data = s := rfl

theorem setPairs_eq : ∀ (p : String × ValV.VE) (l : List (String × ValV.VE)),
    setPairs (p :: l) = specJoin ((p :: l).map pairStr) ++ ". " := by
  intro p l
  induction l generalizing p with
  | nil => simp [setPairs, specJoin, pairStr, String.append_assoc]
  | cons q r ih =>
    have h1 : setPairs (p :: q :: r) =
        p.1 ++ ": " ++ ValV.ErrStr p.2 ++ ". " ++ setPairs (q :: r) := rfl
    rw [h1, ih q]
    have h2 : specJoin ((p :: q :: r).map pairStr) =
        pairStr p ++ ". " ++ specJoin ((q :: r).map pairStr) := rfl
    rw [h2]
    simp [pairStr, String.append_assoc]

theorem specJoin_last : ∀ (L : List String) (x : String),
    ∃ pre : String, specJoin (L ++ [x]) = pre ++ x := by
  intro L
  induction L with
  | nil => exact fun x => ⟨"", by simp [specJoin]⟩
  | cons y L' ih =>
    intro x
    obtain ⟨pre, hpre⟩ := ih x
    refine ⟨y ++ ". " ++ pre, ?_⟩
    have h1 : specJoin ((y :: L') ++ [x]) = y ++ ". " ++ specJoin (L' ++ [x]) := by
      cases L' with
      | nil => simp [specJoin]
      | cons z L'' => simp [specJoin]
    rw [h1, hpre]
    simp [String.append_assoc]

theorem inCut_false (c : Char) (hc1 : c ≠ '.') (hc2 : c ≠ ' ') :
    inCut ['.', ' '] c = false := by
  simp [inCut, hc1, hc2]

theorem goTrim_append (X : String) (c : Char) (r : List Char)
    (hrev : X.toList.reverse = c :: r) (hc1 : c ≠ '.') (hc2 : c ≠ ' ') :
    goTrimRight (X ++ ". ") ['.', ' '] = X := by
  have hrev' : X.data.reverse = c :: r := hrev
  have hdata : (X ++ ". ").toList = X.data ++ ['.', ' '] := by
    show (X ++ ". ").data = X.data ++ ['.', ' ']
    rw [String.data_append]
  rw [goTrimRight, hdata, List.reverse_append]
  have hstep : List.dropWhile (inCut ['.', ' '])
      ((['.', ' '] : List Char).reverse ++ X.data.reverse) = c :: r := by
    rw [hrev']
    show List.dropWhile (inCut ['.', ' ']) (' ' :: '.' :: c :: r) = c :: r
    rw [List.dropWhile_cons, if_pos (by decide), List.dropWhile_cons, if_pos (by decide),
      List.dropWhile_cons, if_neg (by simp [inCut_false c hc1 hc2])]
  rw [hstep, show (c :: r) = X.data.reverse from hrev'.symm, List.reverse_reverse]

end ESet

namespace PtrV

theorem New_run (σ : St) (s : String) :
    (New σ s).1 = σ.heap.length ∧
    (New σ s).2.heap.length = σ.heap.length + 1 ∧
    getNode (New σ s).2 σ.heap.length = some ⟨EV.foreign σ.fstore.length s, none, none⟩ ∧
    ∀ b, b < σ.heap.length → getNode (New σ s).2 b = getNode σ b := by
  refine ⟨rfl, by simp [New, stdNew, allocNode], ?_, ?_⟩
  · exact getNode_alloc_self ⟨σ.heap, σ.fstore ++ [s]⟩ _
  · intro b hb
    show getNode (allocNode ⟨σ.heap, σ.fstore ++ [s]⟩ _) b = _
    rw [getNode_alloc_lt ⟨σ.heap, σ.fstore ++ [s]⟩ _ b hb]
    rfl

theorem Equal_roots (σ : St) (a1 a2 : Nat) (n1 n2 : Node)
    (h1 : getNode σ a1 = some n1) (h2 : getNode σ a2 = some n2)
    (hi1 : n1.inner = none) (hi2 : n2.inner = none) (hne : a1 ≠ a2) :
    Equal σ (EV.chain a1) (EV.chain a2) = some (false, σ) := by
  simp [Equal, hne, Base, h1, h2, hi1, hi2, Ne.symm hne]

theorem chainAnnos_head (fuel : Nat) (σ : St) (a : Nat) (nd : Node)
    (ℓ : List (List (String × String))) (h1 : getNode σ a = some nd)
    (h2 : chainAnnos fuel σ a = some ℓ) : ∃ r, ℓ = nd.anno.getD [] :: r := by
  cases fuel with
  | zero => simp [chainAnnos] at h2
  | succ f =>
    cases hinner : nd.inner with
    | none =>
      simp [chainAnnos, h1, hinner] at h2
      exact ⟨[], h2.symm⟩
    | some iv =>
      cases iv with
      | foreign id m =>
        simp [chainAnnos, h1, hinner] at h2
        exact ⟨[[]], h2.symm⟩
      | chain b =>
        cases hr : chainAnnos f σ b with
        | none => simp [chainAnnos, h1, hinner, hr] at h2
        | some r =>
          simp [chainAnnos, h1, hinner, hr] at h2
          exact ⟨r, h2.symm⟩

end PtrV

/-- C1: the claim says all six wrap/append operations return a new,
independent node and never mutate the receiver or their arguments.
Refuted on the pointer revision: `(*Error).Wrap` (lines 102-106) writes
`e.inner = err` in place and returns `e` itself.  On the node `e` built by
`New("a")` (address 0, `inner` nil), `e.Wrap(x)` returns address 0 — the
very same node — and afterwards `e`'s `inner` field holds `x` instead of
nil. -/
theorem C1_cex :
    PtrV.Wrap ⟨[⟨PtrV.EV.foreign 0 "a", none, none⟩], ["a"]⟩ 0 (PtrV.EV.foreign 1 "x") =
      some (0, ⟨[⟨PtrV.EV.foreign 0 "a", some (PtrV.EV.foreign 1 "x"), none⟩], ["a"]⟩) ∧
    (PtrV.getNode ⟨[⟨PtrV.EV.foreign 0 "a", none, none⟩], ["a"]⟩ 0).map PtrV.Node.inner =
      some none ∧
    (PtrV.getNode ⟨[⟨PtrV.EV.foreign 0 "a", some (PtrV.EV.foreign 1 "x"), none⟩], ["a"]⟩ 0).map
      PtrV.Node.inner = some (some (PtrV.EV.foreign 1 "x")) :=
  ⟨rfl, rfl, rfl⟩

/-- C1 (amended): in the pointer revision, `Wrap` (hence `Wraps`/`Wrapf`)
mutates the receiver in place — it sets the receiver's `inner` to the
argument and returns the receiver's own address — and `Append` with a
chain-node argument mutates that argument the same way; only `Append`
with a foreign argument and `Appends`/`Appendf` allocate a fresh node and
leave every existing node untouched.  In the `DefaultError` revision,
`Wrap` is copy-on-write: it returns a new value whose `inner` is the
argument, the receiver value being unchanged by construction. -/
theorem C1_thm :
    (∀ (σ : PtrV.St) (a : Nat) (x : PtrV.EV) (nd : PtrV.Node),
        PtrV.getNode σ a = some nd →
        ∃ σ', PtrV.Wrap σ a x = some (a, σ') ∧
          PtrV.getNode σ' a = some ⟨nd.err, some x, nd.anno⟩ ∧
          σ'.heap.length = σ.heap.length)
    ∧ (∀ (σ : PtrV.St) (a : Nat) (s : String),
        PtrV.Wraps σ a s =
          PtrV.Wrap ⟨σ.heap, σ.fstore ++ [s]⟩ a (PtrV.EV.foreign σ.fstore.length s))
    ∧ (∀ (σ : PtrV.St) (a id : Nat) (s : String),
        PtrV.Append σ a (PtrV.EV.foreign id s) =
          some (σ.heap.length,
            PtrV.allocNode σ ⟨PtrV.EV.foreign id s, some (PtrV.EV.chain a), none⟩))
    ∧ (∀ (σ : PtrV.St) (a b : Nat) (nd : PtrV.Node),
        PtrV.getNode σ b = some nd →
        ∃ σ', PtrV.Append σ a (PtrV.EV.chain b) = some (b, σ') ∧
          PtrV.getNode σ' b = some ⟨nd.err, some (PtrV.EV.chain a), nd.anno⟩)
    ∧ (∀ (σ : PtrV.St) (a : Nat) (s : String),
        (PtrV.Appends σ a s).1 = σ.heap.length + 1 ∧
        (PtrV.Appends σ a s).2.heap.length = σ.heap.length + 2 ∧
        ∀ b, b < σ.heap.length → PtrV.getNode (PtrV.Appends σ a s).2 b = PtrV.getNode σ b)
    ∧ (∀ (m : String) (i x : ValV.VE),
        ValV.DWrap (ValV.VE.root m) x = ValV.VE.wrapped m x ∧
        ValV.DWrap (ValV.VE.wrapped m i) x = ValV.VE.wrapped m x) := by
  refine ⟨?_, fun σ a s => rfl, fun σ a id s => rfl, ?_, ?_, fun m i x => ⟨rfl, rfl⟩⟩
  · intro σ a x nd hnd
    refine ⟨PtrV.setNode σ a ⟨nd.err, some x, nd.anno⟩, ?_, ?_, PtrV.length_setNode σ a _⟩
    · simp [PtrV.Wrap, hnd]
    · exact PtrV.getNode_set_self σ a _ (PtrV.getNode_lt σ a nd hnd)
  · intro σ a b nd hnd
    refine ⟨PtrV.setNode σ b ⟨nd.err, some (PtrV.EV.chain a), nd.anno⟩, ?_, ?_⟩
    · simp [PtrV.Append, PtrV.Wrap, hnd]
    · exact PtrV.getNode_set_self σ b _ (PtrV.getNode_lt σ b nd hnd)
  · intro σ a s
    obtain ⟨hN1, hN2, hN3, hN4⟩ := PtrV.New_run σ s
    refine ⟨?_, ?_, ?_⟩
    · show (PtrV.New σ s).2.heap.length = σ.heap.length + 1
      exact hN2
    · show ((PtrV.allocNode (PtrV.New σ s).2 _).heap).length = σ.heap.length + 2
      rw [PtrV.length_allocNode, hN2]
    · intro b hb
      show PtrV.getNode (PtrV.allocNode (PtrV.New σ s).2 _) b = PtrV.getNode σ b
      rw [PtrV.getNode_alloc_lt _ _ b (by rw [hN2]; omega), hN4 b hb]

/-- C1 witness: the amended theorem applied at the `New("a")` node of the
counterexample state. -/
theorem C1_witness :
    ∃ σ', PtrV.Wrap ⟨[⟨PtrV.EV.foreign 0 "a", none, none⟩], ["a"]⟩ 0
        (PtrV.EV.foreign 1 "x") = some (0, σ') ∧
      PtrV.getNode σ' 0 = some ⟨PtrV.EV.foreign 0 "a", some (PtrV.EV.foreign 1 "x"), none⟩ ∧
      σ'.heap.length = (⟨[⟨PtrV.EV.foreign 0 "a", none, none⟩], ["a"]⟩ : PtrV.St).heap.length :=
  C1_thm.1 ⟨[⟨PtrV.EV.foreign 0 "a", none, none⟩], ["a"]⟩ 0 (PtrV.EV.foreign 1 "x")
    ⟨PtrV.EV.foreign 0 "a", none, none⟩ rfl

/-- C2: the claim says `Equal(New("a"), New("a"))` is false in both
revisions because equality is by root identity.  Refuted on the
`DefaultError` revision (the lines the claim cites): `DefaultError` is a
comparable Go value type, so two independently constructed
`DefaultError{msg: "a"}` values are `==` and `Equal` returns true at its
very first identity test. -/
theorem C2_cex : ValV.Equal (ValV.New "a") (ValV.New "a") = true := by
  simp [ValV.Equal, ValV.New]

/-- C2 (amended): in the pointer revision two separate `New("a")` calls
allocate distinct nodes and `Equal` on them is false, for every prior
state and every message; in the `DefaultError` revision the two results
are structurally identical interface values and `Equal` is true. -/
theorem C2_thm :
    (∀ (σ : PtrV.St) (s : String),
        PtrV.Equal (PtrV.New (PtrV.New σ s).2 s).2
          (PtrV.EV.chain (PtrV.New σ s).1)
          (PtrV.EV.chain (PtrV.New (PtrV.New σ s).2 s).1) =
          some (false, (PtrV.New (PtrV.New σ s).2 s).2))
    ∧ (∀ m : String, ValV.Equal (ValV.New m) (ValV.New m) = true) := by
  constructor
  · intro σ s
    obtain ⟨hA1, hA2, hA3, hA4⟩ := PtrV.New_run σ s
    obtain ⟨hB1, hB2, hB3, hB4⟩ := PtrV.New_run (PtrV.New σ s).2 s
    rw [hA1, hB1, hA2]
    have h1 : PtrV.getNode (PtrV.New (PtrV.New σ s).2 s).2 σ.heap.length =
        some ⟨PtrV.EV.foreign σ.fstore.length s, none, none⟩ := by
      rw [hB4 σ.heap.length (by rw [hA2]; omega), hA3]
    have h2 := hB3
    rw [hA2] at h2
    exact PtrV.Equal_roots _ σ.heap.length (σ.heap.length + 1) _ _ h1 h2 rfl rfl
      (by omega)
  · intro m
    simp [ValV.Equal, ValV.New]

/-- C3 (confirmed): mixed `Equal` between a chain node and a foreign
error.  In both revisions a chain node's `Base()` is itself a chain value,
so it can never be the identical object as a foreign error: the claim's
first conditional holds vacuously, and whenever `Base()` differs from the
foreign error — i.e. always — `Equal` is false in both argument orders. -/
theorem C3_thm :
    (∀ (σ : PtrV.St) (a b : Nat) (σb : PtrV.St) (id : Nat) (m : String),
        PtrV.Base σ a = some (b, σb) →
        ((PtrV.EV.chain b = PtrV.EV.foreign id m →
            PtrV.Equal σ (PtrV.EV.chain a) (PtrV.EV.foreign id m) = some (true, σb) ∧
            PtrV.Equal σ (PtrV.EV.foreign id m) (PtrV.EV.chain a) = some (true, σb)) ∧
         (PtrV.EV.chain b ≠ PtrV.EV.foreign id m →
            PtrV.Equal σ (PtrV.EV.chain a) (PtrV.EV.foreign id m) = some (false, σb) ∧
            PtrV.Equal σ (PtrV.EV.foreign id m) (PtrV.EV.chain a) = some (false, σb))))
    ∧ (∀ (e : ValV.VE) (id : Nat) (m : String), ValV.isChain e = true →
        ((ValV.Base e = ValV.VE.foreign id m →
            ValV.Equal e (ValV.VE.foreign id m) = true ∧
            ValV.Equal (ValV.VE.foreign id m) e = true) ∧
         (ValV.Base e ≠ ValV.VE.foreign id m →
            ValV.Equal e (ValV.VE.foreign id m) = false ∧
            ValV.Equal (ValV.VE.foreign id m) e = false))) := by
  constructor
  · intro σ a b σb id m hbase
    refine ⟨fun h => absurd h (by simp), fun _ => ⟨?_, ?_⟩⟩
    · simp [PtrV.Equal, hbase]
    · simp [PtrV.Equal, hbase]
  · intro e id m hchain
    cases e with
    | foreign jd jm => simp [ValV.isChain] at hchain
    | root m' =>
      refine ⟨fun h => absurd h (by simp [ValV.Base]), fun _ => ?_⟩
      constructor <;> simp [ValV.Equal, ValV.isChain]
    | wrapped m' i =>
      refine ⟨fun h => absurd h (by simp [ValV.Base]), fun _ => ?_⟩
      constructor <;> simp [ValV.Equal, ValV.isChain]

/-- C3 witness: the theorem applied to the root node `New("a")` (address
0) against a foreign error, in both revisions. -/
theorem C3_witness :
    PtrV.Equal ⟨[⟨PtrV.EV.foreign 0 "a", none, none⟩], ["a"]⟩ (PtrV.EV.chain 0)
        (PtrV.EV.foreign 1 "f") =
      some (false, ⟨[⟨PtrV.EV.foreign 0 "a", none, none⟩], ["a"]⟩) ∧
    PtrV.Equal ⟨[⟨PtrV.EV.foreign 0 "a", none, none⟩], ["a"]⟩ (PtrV.EV.foreign 1 "f")
        (PtrV.EV.chain 0) =
      some (false, ⟨[⟨PtrV.EV.foreign 0 "a", none, none⟩], ["a"]⟩) ∧
    ValV.Equal (ValV.VE.root "x") (ValV.VE.foreign 0 "f") = false ∧
    ValV.Equal (ValV.VE.foreign 0 "f") (ValV.VE.root "x") = false := by
  have h1 := (C3_thm.1 ⟨[⟨PtrV.EV.foreign 0 "a", none, none⟩], ["a"]⟩ 0 0
    ⟨[⟨PtrV.EV.foreign 0 "a", none, none⟩], ["a"]⟩ 1 "f" rfl).2 (by decide)
  have h2 := (C3_thm.2 (ValV.VE.root "x") 0 "f" rfl).2 (by decide)
  exact ⟨h1.1, h1.2, h2.1, h2.2⟩

/-- C4 (confirmed): the strict package-level `Wrap` of the `DefaultError`
revision, and likewise `RWraps`/`RWrapf`, panic (modelled as `none`)
whenever the outer argument is not a library chain node, and return
normally (a `some` value, the wrapped chain) whenever it is. -/
theorem C4_thm : ∀ (i j : ValV.VE) (id : Nat) (m s : String),
    ValV.Wrap i (ValV.VE.foreign id m) = none ∧
    ValV.RWraps (ValV.VE.foreign id m) s = none ∧
    ValV.RWrapf (ValV.VE.foreign id m) s = none ∧
    ValV.Wrap i (ValV.VE.root m) = some (ValV.VE.wrapped m i) ∧
    ValV.Wrap i (ValV.VE.wrapped m j) = some (ValV.VE.wrapped m i) ∧
    ValV.RWraps (ValV.VE.root m) s = some (ValV.VE.wrapped m (ValV.VE.root s)) ∧
    ValV.RWraps (ValV.VE.wrapped m j) s = some (ValV.VE.wrapped m (ValV.VE.root s)) ∧
    ValV.RWrapf (ValV.VE.root m) s = some (ValV.VE.wrapped m (ValV.VE.root s)) ∧
    ValV.RWrapf (ValV.VE.wrapped m j) s = some (ValV.VE.wrapped m (ValV.VE.root s)) :=
  fun _ _ _ _ _ => ⟨rfl, rfl, rfl, rfl, rfl, rfl, rfl, rfl, rfl⟩

/-- C5 (confirmed): whenever `GetAnnotations` returns, the lookup of any
key in its result is the first hit walking the chain's per-level
annotation maps from the outermost node inwards — the union of all
levels' annotations with outer keys taking precedence on collision at
every level. -/
theorem C5_thm : ∀ (fuel : Nat) (σ : PtrV.St) (a : Nat) (m : List (String × String))
    (σ' : PtrV.St), PtrV.GetAnnotations fuel σ a = some (m, σ') →
    ∃ ℓ, PtrV.chainAnnos fuel σ a = some ℓ ∧
      ∀ k, List.lookup k m = PtrV.firstSome (ℓ.map (List.lookup k)) :=
  PtrV.ga_lookup

/-- C5 witness: the spec's own example — the outer node carries
`"k" → "outer"`, the inner node `"k" → "inner"`, and `GetAnnotations`
yields the map whose `"k"` entry is `"outer"`. -/
theorem C5_witness :
    ∃ ℓ, PtrV.chainAnnos 2
        ⟨[⟨PtrV.EV.foreign 0 "o", some (PtrV.EV.chain 1), some [("k", "outer")]⟩,
          ⟨PtrV.EV.foreign 1 "i", none, some [("k", "inner")]⟩], ["o", "i"]⟩ 0 = some ℓ ∧
      ∀ k, List.lookup k [("k", "outer")] = PtrV.firstSome (ℓ.map (List.lookup k)) :=
  C5_thm 2
    ⟨[⟨PtrV.EV.foreign 0 "o", some (PtrV.EV.chain 1), some [("k", "outer")]⟩,
      ⟨PtrV.EV.foreign 1 "i", none, some [("k", "inner")]⟩], ["o", "i"]⟩ 0
    [("k", "outer")]
    ⟨[⟨PtrV.EV.foreign 0 "o", some (PtrV.EV.chain 1), some [("k", "outer")]⟩,
      ⟨PtrV.EV.foreign 1 "i", none, some [("k", "inner")]⟩], ["o", "i"]⟩
    (by decide)

/-- C6: the claim says `Cause` on a chain whose innermost member is a
foreign error `f` returns a result identical to `f`.  Refuted:
`(*Error).Inner` repackages a foreign inner into a fresh `&Error` wrapper
(lines 27-29), so `(*Error).Cause` returns that freshly allocated chain
node (here address 2 after the two `Inner()` allocations), never the
foreign value itself. -/
theorem C6_cex :
    (PtrV.Cause 2
        ⟨[⟨PtrV.EV.foreign 0 "b", some (PtrV.EV.foreign 1 "f"), none⟩], ["b", "f"]⟩ 0).map
      Prod.fst = some (PtrV.EV.chain 2) ∧
    PtrV.EV.chain 2 ≠ PtrV.EV.foreign 1 "f" := by
  exact ⟨by decide, by decide⟩

/-- C6 (amended): `Cause` walks `Inner()` until absent.  On a fresh root
it returns that root (its own `Base`); on a depth-N chain of library
nodes it returns the innermost node, which equals its own `Base()`; but
when the innermost member is a foreign error `f` it returns a freshly
synthesized chain node whose base is `f`, not `f` itself.  The
package-level `Cause` (modelled from the spec) returns a non-chain
argument unchanged. -/
theorem C6_thm :
    (∀ (σ : PtrV.St) (m : String),
        PtrV.Cause 1 (PtrV.New σ m).2 σ.heap.length =
          some (PtrV.EV.chain σ.heap.length, (PtrV.New σ m).2))
    ∧ (∀ (σ : PtrV.St) (n a c : Nat), PtrV.ChainTo σ n a c →
        PtrV.Cause (n + 1) σ a = some (PtrV.EV.chain c, σ) ∧
        PtrV.Base σ c = some (c, σ))
    ∧ (∀ (σ : PtrV.St) (a : Nat) (nd : PtrV.Node) (id : Nat) (s : String),
        PtrV.getNode σ a = some nd → nd.inner = some (PtrV.EV.foreign id s) →
        PtrV.Cause 2 σ a =
          some (PtrV.EV.chain (σ.heap.length + 1),
            PtrV.allocNode (PtrV.allocNode σ ⟨PtrV.EV.foreign id s, none, none⟩)
              ⟨PtrV.EV.foreign id s, none, none⟩) ∧
        PtrV.EV.chain (σ.heap.length + 1) ≠ PtrV.EV.foreign id s)
    ∧ (∀ (fuel : Nat) (σ : PtrV.St) (id : Nat) (m : String),
        PtrV.pkgCause fuel σ (PtrV.EV.foreign id m) = some (PtrV.EV.foreign id m, σ)) := by
  refine ⟨?_, ?_, ?_, fun _ _ _ _ => rfl⟩
  · intro σ m
    obtain ⟨-, -, h3, -⟩ := PtrV.New_run σ m
    simp [PtrV.Cause, PtrV.Inner, h3]
  · intro σ n
    induction n with
    | zero =>
      intro a c h
      obtain ⟨rfl, nd, hnd, hinner⟩ := h
      exact ⟨by simp [PtrV.Cause, PtrV.Inner, hnd, hinner],
        by simp [PtrV.Base, hnd, hinner]⟩
    | succ k ih =>
      intro a c h
      obtain ⟨b, nd, hnd, hinner, hrest⟩ := h
      obtain ⟨ih1, ih2⟩ := ih b c hrest
      refine ⟨?_, ih2⟩
      have h1 : PtrV.Inner σ a = some (some b, σ) := by simp [PtrV.Inner, hnd, hinner]
      rw [PtrV.Cause]
      simp only [h1]
      exact ih1
  · intro σ a nd id s hnd hinner
    have ha : a < σ.heap.length := PtrV.getNode_lt σ a nd hnd
    have hnd1 : PtrV.getNode (PtrV.allocNode σ ⟨PtrV.EV.foreign id s, none, none⟩) a =
        some nd := by
      rw [PtrV.getNode_alloc_lt σ _ a ha, hnd]
    have hself : PtrV.getNode
        (PtrV.allocNode (PtrV.allocNode σ ⟨PtrV.EV.foreign id s, none, none⟩)
          ⟨PtrV.EV.foreign id s, none, none⟩) (σ.heap.length + 1) =
        some ⟨PtrV.EV.foreign id s, none, none⟩ := by
      have h := PtrV.getNode_alloc_self (PtrV.allocNode σ ⟨PtrV.EV.foreign id s, none, none⟩)
        ⟨PtrV.EV.foreign id s, none, none⟩
      rw [PtrV.length_allocNode] at h
      exact h
    refine ⟨?_, by simp⟩
    simp [PtrV.Cause, PtrV.Inner, hnd, hinner, hnd1, hself, PtrV.length_allocNode]

/-- C6 witness: the amended theorem applied to a depth-1 all-chain chain
and to the chain with a foreign innermost member. -/
theorem C6_witness :
    (PtrV.Cause 2
        ⟨[⟨PtrV.EV.foreign 0 "b0", some (PtrV.EV.chain 1), none⟩,
          ⟨PtrV.EV.foreign 1 "b1", none, none⟩], ["b0", "b1"]⟩ 0 =
      some (PtrV.EV.chain 1,
        ⟨[⟨PtrV.EV.foreign 0 "b0", some (PtrV.EV.chain 1), none⟩,
          ⟨PtrV.EV.foreign 1 "b1", none, none⟩], ["b0", "b1"]⟩) ∧
      PtrV.Base
        ⟨[⟨PtrV.EV.foreign 0 "b0", some (PtrV.EV.chain 1), none⟩,
          ⟨PtrV.EV.foreign 1 "b1", none, none⟩], ["b0", "b1"]⟩ 1 =
      some (1,
        ⟨[⟨PtrV.EV.foreign 0 "b0", some (PtrV.EV.chain 1), none⟩,
          ⟨PtrV.EV.foreign 1 "b1", none, none⟩], ["b0", "b1"]⟩)) ∧
    (PtrV.Cause 2
        ⟨[⟨PtrV.EV.foreign 0 "b", some (PtrV.EV.foreign 1 "f"), none⟩], ["b", "f"]⟩ 0 =
      some (PtrV.EV.chain
          ((⟨[⟨PtrV.EV.foreign 0 "b", some (PtrV.EV.foreign 1 "f"), none⟩],
            ["b", "f"]⟩ : PtrV.St).heap.length + 1),
        PtrV.allocNode
          (PtrV.allocNode
            ⟨[⟨PtrV.EV.foreign 0 "b", some (PtrV.EV.foreign 1 "f"), none⟩], ["b", "f"]⟩
            ⟨PtrV.EV.foreign 1 "f", none, none⟩)
          ⟨PtrV.EV.foreign 1 "f", none, none⟩) ∧
      PtrV.EV.chain
          ((⟨[⟨PtrV.EV.foreign 0 "b", some (PtrV.EV.foreign 1 "f"), none⟩],
            ["b", "f"]⟩ : PtrV.St).heap.length + 1) ≠ PtrV.EV.foreign 1 "f") := by
  refine ⟨C6_thm.2.1 _ 1 0 1 ?_, C6_thm.2.2.1 _ 0
    ⟨PtrV.EV.foreign 0 "b", some (PtrV.EV.foreign 1 "f"), none⟩ 1 "f" rfl rfl⟩
  exact ⟨1, ⟨PtrV.EV.foreign 0 "b0", some (PtrV.EV.chain 1), none⟩, rfl, rfl, rfl,
    ⟨PtrV.EV.foreign 1 "b1", none, none⟩, rfl, rfl⟩

/-- C7 (confirmed): `New(m).Error() == m` — a fresh root renders exactly
its message, with no delimiter and no annotation suffix, in both
revisions. -/
theorem C7_thm : ∀ (σ : PtrV.St) (m : String),
    PtrV.ErrorStr 1 (PtrV.New σ m).2 σ.heap.length = some (m, (PtrV.New σ m).2) ∧
    ValV.ErrStr (ValV.New m) = m := by
  intro σ m
  obtain ⟨-, -, h3, -⟩ := PtrV.New_run σ m
  exact ⟨by simp [PtrV.ErrorStr, PtrV.GetAnnotations, PtrV.Inner, h3], rfl⟩

/-- C8: the claim says `ErrorSet.Error` renders every entry as a
`key: message. ` pair, each appearing exactly once.  Refuted: the code
trims ALL trailing `'.'` and `' '` characters (`strings.TrimRight(output,
". ")`), so an entry whose message itself ends in `'.'` loses that
character — for the singleton set `"k" → New("m.")` the output is
`"k: m"`, which does not contain the pair `"k: m."` at all. -/
theorem C8_cex :
    ESet.ErrorStr ⟨some [("k", ValV.VE.root "m.")]⟩ = "k: m" ∧
    ¬ ∃ l r : List Char, ("k: m" : String).toList =
        l ++ ("k: m." : String).toList ++ r := by
  refine ⟨by decide, ?_⟩
  rintro ⟨l, r, h⟩
  have hlen := congrArg List.length h
  rw [List.length_append, List.length_append] at hlen
  have e1 : ("k: m" : String).toList.length = 4 := rfl
  have e2 : ("k: m." : String).toList.length = 5 := rfl
  rw [e1, e2] at hlen
  omega

/-- C8 (amended): `ErrorSet.Error` renders its entries as `key: message`
pairs joined by `". "`; since the code appends `". "` after every pair
and then trims all trailing `'.'`/`' '` characters, whenever the last
rendered message does not end in `'.'` or `' '` the output is exactly the
pairs joined with no dangling delimiter (and in particular the spec's
two-entry foo/bar set yields one of its two permitted strings). -/
theorem C8_thm : ∀ (es₀ : List (String × ValV.VE)) (k : String) (v : ValV.VE) (c : Char)
    (t : List Char), (ValV.ErrStr v).toList.reverse = c :: t → c ≠ '.' → c ≠ ' ' →
    ESet.ErrorStr ⟨some (es₀ ++ [(k, v)])⟩ =
      ESet.specJoin ((es₀ ++ [(k, v)]).map ESet.pairStr) := by
  intro es₀ k v c t hrev hc1 hc2
  obtain ⟨p, l, hpl⟩ : ∃ p l, es₀ ++ [(k, v)] = p :: l := by
    cases es₀ with
    | nil => exact ⟨(k, v), [], rfl⟩
    | cons q r => exact ⟨q, r ++ [(k, v)], by simp⟩
  obtain ⟨pre, hpre⟩ := ESet.specJoin_last (es₀.map ESet.pairStr) (ESet.pairStr (k, v))
  have hmap : (es₀ ++ [(k, v)]).map ESet.pairStr =
      es₀.map ESet.pairStr ++ [ESet.pairStr (k, v)] := by simp
  have hrev' : (ValV.ErrStr v).data.reverse = c :: t := hrev
  have h2 : ∃ rest, (pre ++ ESet.pairStr (k, v)).toList.reverse = c :: rest := by
    refine ⟨t ++ ((k.data ++ ": ".data).reverse ++ pre.data.reverse), ?_⟩
    show (pre.data ++ ((k.data ++ ": ".data) ++ (ValV.ErrStr v).data)).reverse = _
    rw [List.reverse_append, List.reverse_append, hrev']
    simp [List.append_assoc]
  rw [hpl]
  have hES : ESet.ErrorStr ⟨some (p :: l)⟩ =
      ESet.goTrimRight (ESet.setPairs (p :: l)) ['.', ' '] := by
    simp [ESet.ErrorStr]
  rw [hES, ESet.setPairs_eq p l]
  have hXeq : ESet.specJoin ((p :: l).map ESet.pairStr) = pre ++ ESet.pairStr (k, v) := by
    rw [← hpl, hmap, hpre]
  obtain ⟨rest, hrest⟩ := h2
  exact ESet.goTrim_append _ c rest (by rw [hXeq]; exact hrest) hc1 hc2

/-- C8 witness: the spec's verbatim two-entry scenario — `"foo" → "Foo"`,
`"bar" → "Bar"` renders as `"foo: Foo. bar: Bar"` (the model iterates in
insertion order, one of the two permitted orders). -/
theorem C8_witness :
    ESet.ErrorStr ⟨some ([("foo", ValV.VE.root "Foo")] ++ [("bar", ValV.VE.root "Bar")])⟩ =
      "foo: Foo. bar: Bar" := by
  have h := C8_thm [("foo", ValV.VE.root "Foo")] "bar" (ValV.VE.root "Bar") 'r' ['a', 'B']
    (by decide) (by decide) (by decide)
  rw [h]
  decide

/-- C9 (confirmed): `GetAnnotations` is not a pure read.  Whenever the
receiver node's own annotation map is non-nil (`anno = some l`) and the
call returns map `m`, the receiver's stored annotation map afterwards IS
`m` itself — the merged map containing the receiver's own entries plus
every inner entry whose key the receiver did not already have — so the
inner nodes' entries are permanently inserted into the outer node.  And
because `(*Error).Error` calls `GetAnnotations`, merely rendering the
two-node chain below (outer `a→1`, inner `b→2`) leaves the outer node's
map permanently grown to `a→1, b→2`. -/
theorem C9_thm :
    (∀ (fuel : Nat) (σ : PtrV.St) (a : Nat) (nd : PtrV.Node) (l m : List (String × String))
        (σ' : PtrV.St), PtrV.getNode σ a = some nd → nd.anno = some l →
        PtrV.GetAnnotations fuel σ a = some (m, σ') →
        PtrV.getNode σ' a = some ⟨nd.err, nd.inner, some m⟩ ∧
        ∃ ℓ, PtrV.chainAnnos fuel σ a = some (l :: ℓ) ∧
          ∀ k, List.lookup k m =
            PtrV.firstSome (List.lookup k l :: ℓ.map (List.lookup k)))
    ∧ ((PtrV.ErrorStr 2
          ⟨[⟨PtrV.EV.foreign 0 "out", some (PtrV.EV.chain 1), some [("a", "1")]⟩,
            ⟨PtrV.EV.foreign 1 "in", none, some [("b", "2")]⟩], ["out", "in"]⟩ 0).map
        (fun p => (PtrV.getNode p.2 0).map PtrV.Node.anno) =
      some (some (some [("a", "1"), ("b", "2")]))) := by
  constructor
  · intro fuel σ a nd l m σ' hnd hanno h
    refine ⟨PtrV.ga_writes fuel σ a nd l m σ' hnd hanno h, ?_⟩
    obtain ⟨ℓtot, hca, hlk⟩ := PtrV.ga_lookup fuel σ a m σ' h
    obtain ⟨tail, htail⟩ := PtrV.chainAnnos_head fuel σ a nd ℓtot hnd hca
    rw [hanno] at htail
    simp only [Option.getD_some] at htail
    subst htail
    refine ⟨tail, hca, fun k => ?_⟩
    have := hlk k
    simpa [List.map_cons] using this
  · decide

/-- C9 witness: the mutating conjunct applied to the two-node chain whose
outer node carries `a→1` and whose inner node carries `b→2`: after
`GetAnnotations`, the outer node's stored map is the returned merged map
`a→1, b→2`. -/
theorem C9_witness :
    PtrV.getNode
        ⟨[⟨PtrV.EV.foreign 0 "out", some (PtrV.EV.chain 1), some [("a", "1"), ("b", "2")]⟩,
          ⟨PtrV.EV.foreign 1 "in", none, some [("b", "2")]⟩], ["out", "in"]⟩ 0 =
      some ⟨PtrV.EV.foreign 0 "out", some (PtrV.EV.chain 1),
        some [("a", "1"), ("b", "2")]⟩ ∧
    ∃ ℓ, PtrV.chainAnnos 2
        ⟨[⟨PtrV.EV.foreign 0 "out", some (PtrV.EV.chain 1), some [("a", "1")]⟩,
          ⟨PtrV.EV.foreign 1 "in", none, some [("b", "2")]⟩], ["out", "in"]⟩ 0 =
      some ([("a", "1")] :: ℓ) ∧
      ∀ k, List.lookup k [("a", "1"), ("b", "2")] =
        PtrV.firstSome (List.lookup k [("a", "1")] :: ℓ.map (List.lookup k)) :=
  C9_thm.1 2
    ⟨[⟨PtrV.EV.foreign 0 "out", some (PtrV.EV.chain 1), some [("a", "1")]⟩,
      ⟨PtrV.EV.foreign 1 "in", none, some [("b", "2")]⟩], ["out", "in"]⟩ 0
    ⟨PtrV.EV.foreign 0 "out", some (PtrV.EV.chain 1), some [("a", "1")]⟩
    [("a", "1")] [("a", "1"), ("b", "2")]
    ⟨[⟨PtrV.EV.foreign 0 "out", some (PtrV.EV.chain 1), some [("a", "1"), ("b", "2")]⟩,
      ⟨PtrV.EV.foreign 1 "in", none, some [("b", "2")]⟩], ["out", "in"]⟩
    rfl rfl (by decide)

end PhayesErrors
